import Mathlib

/-!
Verification of the geometric core of the laptop-screen-editor repository.

The Python source is shallowly embedded: points carry exact rational
coordinates (the source's float arithmetic is modelled exactly), images are
pixel grids of integer samples with explicit dimensions, and external OpenCV
routines that the repository merely calls (resampling kernels, Gaussian blur,
contour search, homography estimation) are parameters of the embedded
functions, constrained only by their documented shape contracts.
-/

namespace LaptopScreen

/-- A 2-D point with exact rational coordinates (source: `app/utils/geometry.py`,
class `Point`; numpy float arrays are modelled exactly). -/
structure Pt where
  x : ℚ
  y : ℚ
deriving DecidableEq, Repr

/-- Per-point coordinate sum `x + y` (source: `points.sum(axis=1)` in
`order_points`). -/
def psum (p : Pt) : ℚ := p.x + p.y

/-- Per-point coordinate difference `y - x` (source: `np.diff(points, axis=1)`
in `order_points`). -/
def pdiff (p : Pt) : ℚ := p.y - p.x

/-- A 4-point input to `order_points` (a `(4, 2)` numpy array in the source). -/
structure Quad where
  p0 : Pt
  p1 : Pt
  p2 : Pt
  p3 : Pt
deriving DecidableEq, Repr

/-- Indexed access to the four points. -/
def Quad.get (q : Quad) (i : Fin 4) : Pt :=
  if i.val = 0 then q.p0 else if i.val = 1 then q.p1 else
    if i.val = 2 then q.p2 else q.p3

@[simp] lemma Quad.get_zero (q : Quad) : q.get 0 = q.p0 := rfl

@[simp] lemma Quad.get_one (q : Quad) : q.get 1 = q.p1 := rfl

@[simp] lemma Quad.get_two (q : Quad) : q.get 2 = q.p2 := rfl

@[simp] lemma Quad.get_three (q : Quad) : q.get 3 = q.p3 := rfl

@[simp] lemma Quad.get_mk_zero (q : Quad) (h : (0 : ℕ) < 4) : q.get ⟨0, h⟩ = q.p0 := rfl

@[simp] lemma Quad.get_mk_one (q : Quad) (h : (1 : ℕ) < 4) : q.get ⟨1, h⟩ = q.p1 := rfl

@[simp] lemma Quad.get_mk_two (q : Quad) (h : (2 : ℕ) < 4) : q.get ⟨2, h⟩ = q.p2 := rfl

@[simp] lemma Quad.get_mk_three (q : Quad) (h : (3 : ℕ) < 4) : q.get ⟨3, h⟩ = q.p3 := rfl

/-- First index attaining the minimum of `f` over the four points, scanning
left to right and replacing the running best only on a strict decrease —
exactly `np.argmin` applied to `[f p0, f p1, f p2, f p3]`. -/
def argminIdx (f : Pt → ℚ) (q : Quad) : Fin 4 :=
  let b1 : Fin 4 := if f (q.get 1) < f (q.get 0) then 1 else 0
  let b2 : Fin 4 := if f (q.get 2) < f (q.get b1) then 2 else b1
  if f (q.get 3) < f (q.get b2) then 3 else b2

/-- First index attaining the maximum of `f`, as `np.argmax` (the running
best is replaced only on a strict increase). -/
def argmaxIdx (f : Pt → ℚ) (q : Quad) : Fin 4 :=
  let b1 : Fin 4 := if f (q.get 0) < f (q.get 1) then 1 else 0
  let b2 : Fin 4 := if f (q.get b1) < f (q.get 2) then 2 else b1
  if f (q.get b2) < f (q.get 3) then 3 else b2

/-- `order_points` (source: `app/utils/geometry.py`, lines 146–163):
`rect[0]` is the minimum-coordinate-sum point (top-left), `rect[2]` the
maximum-sum point (bottom-right), `rect[1]` the minimum-difference point
(top-right) and `rect[3]` the maximum-difference point (bottom-left), numpy
`argmin`/`argmax` taking the first occurrence on ties. -/
def order_points (q : Quad) : Quad :=
  ⟨q.get (argminIdx psum q), q.get (argminIdx pdiff q),
   q.get (argmaxIdx psum q), q.get (argmaxIdx pdiff q)⟩

/-- `f` attains a strict minimum over the quad at index `i`. -/
def StrictMinAt (f : Pt → ℚ) (q : Quad) (i : Fin 4) : Prop :=
  ∀ j, j ≠ i → f (q.get i) < f (q.get j)

/-- `f` attains a strict maximum over the quad at index `i`. -/
def StrictMaxAt (f : Pt → ℚ) (q : Quad) (i : Fin 4) : Prop :=
  ∀ j, j ≠ i → f (q.get j) < f (q.get i)

lemma strictMinAt_iff0 (f : Pt → ℚ) (q : Quad) :
    StrictMinAt f q 0 ↔ f q.p0 < f q.p1 ∧ f q.p0 < f q.p2 ∧ f q.p0 < f q.p3 := by
  constructor
  · intro h
    exact ⟨h 1 (by decide), h 2 (by decide), h 3 (by decide)⟩
  · rintro ⟨a, b, c⟩ j hj
    fin_cases j
    · exact absurd rfl hj
    · exact a
    · exact b
    · exact c

lemma strictMinAt_iff1 (f : Pt → ℚ) (q : Quad) :
    StrictMinAt f q 1 ↔ f q.p1 < f q.p0 ∧ f q.p1 < f q.p2 ∧ f q.p1 < f q.p3 := by
  constructor
  · intro h
    exact ⟨h 0 (by decide), h 2 (by decide), h 3 (by decide)⟩
  · rintro ⟨a, b, c⟩ j hj
    fin_cases j
    · exact a
    · exact absurd rfl hj
    · exact b
    · exact c

lemma strictMaxAt_iff2 (f : Pt → ℚ) (q : Quad) :
    StrictMaxAt f q 2 ↔ f q.p0 < f q.p2 ∧ f q.p1 < f q.p2 ∧ f q.p3 < f q.p2 := by
  constructor
  · intro h
    exact ⟨h 0 (by decide), h 1 (by decide), h 3 (by decide)⟩
  · rintro ⟨a, b, c⟩ j hj
    fin_cases j
    · exact a
    · exact b
    · exact absurd rfl hj
    · exact c

lemma strictMaxAt_iff3 (f : Pt → ℚ) (q : Quad) :
    StrictMaxAt f q 3 ↔ f q.p0 < f q.p3 ∧ f q.p1 < f q.p3 ∧ f q.p2 < f q.p3 := by
  constructor
  · intro h
    exact ⟨h 0 (by decide), h 1 (by decide), h 2 (by decide)⟩
  · rintro ⟨a, b, c⟩ j hj
    fin_cases j
    · exact a
    · exact b
    · exact c
    · exact absurd rfl hj

/-- The claims' "valid (roughly axis-aligned, non-self-intersecting)
quadrilateral": the four corner roles used by `order_points` — minimum
coordinate sum, minimum difference, maximum sum, maximum difference — are
each attained strictly and at four pairwise distinct points.  (A square
rotated by 45° violates this, which is exactly the regime the spec excludes.) -/
def ValidQuad (q : Quad) : Prop :=
  ∃ i1 i2 i3 i4 : Fin 4,
    i1 ≠ i2 ∧ i1 ≠ i3 ∧ i1 ≠ i4 ∧ i2 ≠ i3 ∧ i2 ≠ i4 ∧ i3 ≠ i4 ∧
    StrictMinAt psum q i1 ∧ StrictMinAt pdiff q i2 ∧
    StrictMaxAt psum q i3 ∧ StrictMaxAt pdiff q i4

lemma argminIdx_le (f : Pt → ℚ) (q : Quad) :
    ∀ j, f (q.get (argminIdx f q)) ≤ f (q.get j) := by
  intro j
  simp only [argminIdx]
  split_ifs with h1 h2 h3 h4 h5 h6 h7 <;> fin_cases j <;>
    simp_all <;> linarith

lemma le_argmaxIdx (f : Pt → ℚ) (q : Quad) :
    ∀ j, f (q.get j) ≤ f (q.get (argmaxIdx f q)) := by
  intro j
  simp only [argmaxIdx]
  split_ifs with h1 h2 h3 h4 h5 h6 h7 <;> fin_cases j <;>
    simp_all <;> linarith

lemma argminIdx_eq_of_strictMin {f : Pt → ℚ} {q : Quad} {i : Fin 4}
    (h : StrictMinAt f q i) : argminIdx f q = i := by
  by_contra hne
  exact absurd (argminIdx_le f q i) (not_le.mpr (h _ hne))

lemma argmaxIdx_eq_of_strictMax {f : Pt → ℚ} {q : Quad} {i : Fin 4}
    (h : StrictMaxAt f q i) : argmaxIdx f q = i := by
  by_contra hne
  exact absurd (le_argmaxIdx f q i) (not_le.mpr (h _ hne))

/-- If the quad is already canonically ordered (top-left, top-right,
bottom-right, bottom-left with strict role separation), `order_points`
returns it unchanged. -/
lemma order_points_eq_self {q : Quad}
    (h1 : StrictMinAt psum q 0) (h2 : StrictMinAt pdiff q 1)
    (h3 : StrictMaxAt psum q 2) (h4 : StrictMaxAt pdiff q 3) :
    order_points q = q := by
  unfold order_points
  rw [argminIdx_eq_of_strictMin h1, argminIdx_eq_of_strictMin h2,
    argmaxIdx_eq_of_strictMax h3, argmaxIdx_eq_of_strictMax h4]
  rfl

/-- On a valid quad, the output of `order_points` is canonically ordered. -/
lemma order_points_valid_canonical {q : Quad} (h : ValidQuad q) :
    StrictMinAt psum (order_points q) 0 ∧ StrictMinAt pdiff (order_points q) 1 ∧
    StrictMaxAt psum (order_points q) 2 ∧ StrictMaxAt pdiff (order_points q) 3 := by
  obtain ⟨i1, i2, i3, i4, h12, h13, h14, h23, h24, h34, m1, m2, m3, m4⟩ := h
  have e1 : argminIdx psum q = i1 := argminIdx_eq_of_strictMin m1
  have e2 : argminIdx pdiff q = i2 := argminIdx_eq_of_strictMin m2
  have e3 : argmaxIdx psum q = i3 := argmaxIdx_eq_of_strictMax m3
  have e4 : argmaxIdx pdiff q = i4 := argmaxIdx_eq_of_strictMax m4
  have g0 : (order_points q).p0 = q.get i1 := by
    show q.get (argminIdx psum q) = q.get i1
    rw [e1]
  have g1 : (order_points q).p1 = q.get i2 := by
    show q.get (argminIdx pdiff q) = q.get i2
    rw [e2]
  have g2 : (order_points q).p2 = q.get i3 := by
    show q.get (argmaxIdx psum q) = q.get i3
    rw [e3]
  have g3 : (order_points q).p3 = q.get i4 := by
    show q.get (argmaxIdx pdiff q) = q.get i4
    rw [e4]
  refine ⟨?_, ?_, ?_, ?_⟩
  · rw [strictMinAt_iff0, g0, g1, g2, g3]
    exact ⟨m1 i2 (Ne.symm h12), m1 i3 (Ne.symm h13), m1 i4 (Ne.symm h14)⟩
  · rw [strictMinAt_iff1, g0, g1, g2, g3]
    exact ⟨m2 i1 h12, m2 i3 (Ne.symm h23), m2 i4 (Ne.symm h24)⟩
  · rw [strictMaxAt_iff2, g0, g1, g2, g3]
    exact ⟨m3 i1 h13, m3 i2 h23, m3 i4 (Ne.symm h34)⟩
  · rw [strictMaxAt_iff3, g0, g1, g2, g3]
    exact ⟨m4 i1 h14, m4 i2 h24, m4 i3 h34⟩

/-- **C1.** `order_points` is idempotent on every valid (roughly
axis-aligned, non-self-intersecting) quadrilateral: applying it twice gives
the same ordered quad as applying it once, the four corner roles being the
minimum coordinate-sum point (top-left), maximum-sum point (bottom-right),
minimum `y − x` point (top-right) and maximum `y − x` point (bottom-left),
first occurrence winning on ties. -/
theorem order_points_idempotent {q : Quad} (h : ValidQuad q) :
    order_points (order_points q) = order_points q := by
  obtain ⟨h1, h2, h3, h4⟩ := order_points_valid_canonical h
  exact order_points_eq_self h1 h2 h3 h4

lemma validQuad_witness_quad :
    ValidQuad ⟨⟨0, 0⟩, ⟨4, 0⟩, ⟨4, 3⟩, ⟨0, 3⟩⟩ := by
  refine ⟨0, 1, 2, 3, by decide, by decide, by decide, by decide, by decide,
    by decide, ?_, ?_, ?_, ?_⟩
  · rw [strictMinAt_iff0]
    refine ⟨?_, ?_, ?_⟩ <;> norm_num [psum]
  · rw [strictMinAt_iff1]
    refine ⟨?_, ?_, ?_⟩ <;> norm_num [pdiff]
  · rw [strictMaxAt_iff2]
    refine ⟨?_, ?_, ?_⟩ <;> norm_num [psum]
  · rw [strictMaxAt_iff3]
    refine ⟨?_, ?_, ?_⟩ <;> norm_num [pdiff]

/-- Witness for C1 at the concrete rectangle `[(0,0), (4,0), (4,3), (0,3)]`. -/
theorem order_points_idempotent_witness :
    ValidQuad ⟨⟨0, 0⟩, ⟨4, 0⟩, ⟨4, 3⟩, ⟨0, 3⟩⟩ ∧
    order_points (order_points ⟨⟨0, 0⟩, ⟨4, 0⟩, ⟨4, 3⟩, ⟨0, 3⟩⟩) =
      order_points ⟨⟨0, 0⟩, ⟨4, 0⟩, ⟨4, 3⟩, ⟨0, 3⟩⟩ :=
  ⟨validQuad_witness_quad, order_points_idempotent validQuad_witness_quad⟩

/-! ### calculate_perspective_size (`app/utils/geometry.py`, lines 166–184) -/

/-- Squared Euclidean distance between two points (the square of
`np.linalg.norm (p - q)`). -/
def sqnorm (p q : Pt) : ℚ := (p.x - q.x) ^ 2 + (p.y - q.y) ^ 2

/-- Integer square root by flooring: for `0 ≤ x` this is `⌊√x⌋`, i.e. the
value of Python's `int(np.linalg.norm ...)` when `x` is the squared norm. -/
def isqrt (x : ℚ) : ℕ := Nat.sqrt (Int.toNat ⌊x⌋)

/-- `calculate_perspective_size` (source lines 166–184): orders the points,
then `width = int(max(‖br−bl‖, ‖tr−tl‖))`, `height = int(max(‖tr−br‖, ‖tl−bl‖))`
where `(tl, tr, br, bl)` is the ordered rectangle.  `int(max(√a, √b))` is
computed exactly as `max ⌊√a⌋ ⌊√b⌋` (the theorems below prove this equals the
source's floor of the maximum of the real norms). -/
def calculate_perspective_size (pts : Quad) : ℕ × ℕ :=
  let rect := order_points pts
  (max (isqrt (sqnorm rect.p2 rect.p3)) (isqrt (sqnorm rect.p1 rect.p0)),
   max (isqrt (sqnorm rect.p1 rect.p2)) (isqrt (sqnorm rect.p0 rect.p3)))

lemma sqnorm_nonneg (p q : Pt) : 0 ≤ sqnorm p q := by
  unfold sqnorm; positivity

@[simp] lemma sqnorm_self (p : Pt) : sqnorm p p = 0 := by
  simp [sqnorm]

@[simp] lemma isqrt_zero : isqrt 0 = 0 := by
  simp [isqrt]

lemma natSqrt_eq {n a : ℕ} (h1 : a * a ≤ n) (h2 : n < (a + 1) * (a + 1)) :
    Nat.sqrt n = a := by
  have hle : a ≤ Nat.sqrt n := Nat.le_sqrt.mpr h1
  have hlt : Nat.sqrt n < a + 1 := Nat.sqrt_lt.mpr h2
  omega

/-- `isqrt` computes the floor of the real square root. -/
lemma isqrt_eq_floor_sqrt (x : ℚ) (hx : 0 ≤ x) :
    (isqrt x : ℤ) = ⌊Real.sqrt (x : ℝ)⌋ := by
  have hfl0 : (0 : ℤ) ≤ ⌊x⌋ := Int.floor_nonneg.mpr hx
  have hmx : ((Int.toNat ⌊x⌋ : ℕ) : ℚ) ≤ x := by
    have h0 : ((Int.toNat ⌊x⌋ : ℤ) : ℚ) ≤ x := by
      rw [Int.toNat_of_nonneg hfl0]
      exact Int.floor_le x
    exact_mod_cast h0
  have hxm : x < ((Int.toNat ⌊x⌋ : ℕ) : ℚ) + 1 := by
    have h0 : x < ((Int.toNat ⌊x⌋ : ℤ) : ℚ) + 1 := by
      rw [Int.toNat_of_nonneg hfl0]
      exact Int.lt_floor_add_one x
    exact_mod_cast h0
  have h1 : (isqrt x : ℚ) ^ 2 ≤ x := by
    have ha : (isqrt x * isqrt x : ℕ) ≤ Int.toNat ⌊x⌋ := Nat.sqrt_le _
    have hb : ((isqrt x * isqrt x : ℕ) : ℚ) ≤ ((Int.toNat ⌊x⌋ : ℕ) : ℚ) :=
      Nat.cast_le.mpr ha
    push_cast at hb
    nlinarith
  have h2 : x < ((isqrt x : ℚ) + 1) ^ 2 := by
    have ha : Int.toNat ⌊x⌋ + 1 ≤ (isqrt x + 1) * (isqrt x + 1) :=
      Nat.succ_le_of_lt (Nat.lt_succ_sqrt _)
    have hb : ((Int.toNat ⌊x⌋ + 1 : ℕ) : ℚ) ≤ (((isqrt x + 1) * (isqrt x + 1) : ℕ) : ℚ) :=
      Nat.cast_le.mpr ha
    push_cast at hb
    nlinarith
  have h1R : ((isqrt x : ℝ)) ^ 2 ≤ ((x : ℚ) : ℝ) := by exact_mod_cast h1
  have h2R : ((x : ℚ) : ℝ) < ((isqrt x : ℝ) + 1) ^ 2 := by exact_mod_cast h2
  symm
  rw [Int.floor_eq_iff]
  constructor
  · rw [show (((isqrt x : ℕ) : ℤ) : ℝ) = ((isqrt x : ℕ) : ℝ) by push_cast; ring]
    rw [Real.le_sqrt (by positivity) (by exact_mod_cast hx)]
    exact h1R
  · rw [show (((isqrt x : ℕ) : ℤ) : ℝ) + 1 = ((isqrt x : ℕ) : ℝ) + 1 by push_cast; ring]
    rw [Real.sqrt_lt' (by positivity)]
    exact h2R

/-- The floor of the larger of two real square roots of rational squared
norms is the max of the `isqrt`s. -/
lemma floor_max_sqrt (a b : ℚ) (ha : 0 ≤ a) (hb : 0 ≤ b) :
    ⌊max (Real.sqrt (a : ℝ)) (Real.sqrt (b : ℝ))⌋ = (max (isqrt a) (isqrt b) : ℤ) := by
  rw [(Int.floor_mono : Monotone (Int.floor : ℝ → ℤ)).map_max,
    ← isqrt_eq_floor_sqrt a ha, ← isqrt_eq_floor_sqrt b hb]

lemma argminIdx_congr {f g : Pt → ℚ} {q : Quad}
    (h : ∀ i j : Fin 4, f (q.get i) < f (q.get j) ↔ g (q.get i) < g (q.get j)) :
    argminIdx f q = argminIdx g q := by
  simp only [argminIdx]
  by_cases c1 : f (q.get 1) < f (q.get 0)
  · rw [if_pos c1, if_pos ((h 1 0).mp c1)]
    by_cases c2 : f (q.get 2) < f (q.get 1)
    · rw [if_pos c2, if_pos ((h 2 1).mp c2)]
      by_cases c3 : f (q.get 3) < f (q.get 2)
      · rw [if_pos c3, if_pos ((h 3 2).mp c3)]
      · rw [if_neg c3, if_neg (fun hc => c3 ((h 3 2).mpr hc))]
    · rw [if_neg c2, if_neg (fun hc => c2 ((h 2 1).mpr hc))]
      by_cases c3 : f (q.get 3) < f (q.get 1)
      · rw [if_pos c3, if_pos ((h 3 1).mp c3)]
      · rw [if_neg c3, if_neg (fun hc => c3 ((h 3 1).mpr hc))]
  · rw [if_neg c1, if_neg (fun hc => c1 ((h 1 0).mpr hc))]
    by_cases c2 : f (q.get 2) < f (q.get 0)
    · rw [if_pos c2, if_pos ((h 2 0).mp c2)]
      by_cases c3 : f (q.get 3) < f (q.get 2)
      · rw [if_pos c3, if_pos ((h 3 2).mp c3)]
      · rw [if_neg c3, if_neg (fun hc => c3 ((h 3 2).mpr hc))]
    · rw [if_neg c2, if_neg (fun hc => c2 ((h 2 0).mpr hc))]
      by_cases c3 : f (q.get 3) < f (q.get 0)
      · rw [if_pos c3, if_pos ((h 3 0).mp c3)]
      · rw [if_neg c3, if_neg (fun hc => c3 ((h 3 0).mpr hc))]

lemma argmaxIdx_congr {f g : Pt → ℚ} {q : Quad}
    (h : ∀ i j : Fin 4, f (q.get i) < f (q.get j) ↔ g (q.get i) < g (q.get j)) :
    argmaxIdx f q = argmaxIdx g q := by
  simp only [argmaxIdx]
  by_cases c1 : f (q.get 0) < f (q.get 1)
  · rw [if_pos c1, if_pos ((h 0 1).mp c1)]
    by_cases c2 : f (q.get 1) < f (q.get 2)
    · rw [if_pos c2, if_pos ((h 1 2).mp c2)]
      by_cases c3 : f (q.get 2) < f (q.get 3)
      · rw [if_pos c3, if_pos ((h 2 3).mp c3)]
      · rw [if_neg c3, if_neg (fun hc => c3 ((h 2 3).mpr hc))]
    · rw [if_neg c2, if_neg (fun hc => c2 ((h 1 2).mpr hc))]
      by_cases c3 : f (q.get 1) < f (q.get 3)
      · rw [if_pos c3, if_pos ((h 1 3).mp c3)]
      · rw [if_neg c3, if_neg (fun hc => c3 ((h 1 3).mpr hc))]
  · rw [if_neg c1, if_neg (fun hc => c1 ((h 0 1).mpr hc))]
    by_cases c2 : f (q.get 0) < f (q.get 2)
    · rw [if_pos c2, if_pos ((h 0 2).mp c2)]
      by_cases c3 : f (q.get 2) < f (q.get 3)
      · rw [if_pos c3, if_pos ((h 2 3).mp c3)]
      · rw [if_neg c3, if_neg (fun hc => c3 ((h 2 3).mpr hc))]
    · rw [if_neg c2, if_neg (fun hc => c2 ((h 0 2).mpr hc))]
      by_cases c3 : f (q.get 0) < f (q.get 3)
      · rw [if_pos c3, if_pos ((h 0 3).mp c3)]
      · rw [if_neg c3, if_neg (fun hc => c3 ((h 0 3).mpr hc))]

lemma argminIdx_eq_argmaxIdx_anti {f g : Pt → ℚ} {q : Quad}
    (h : ∀ i j : Fin 4, f (q.get i) < f (q.get j) ↔ g (q.get j) < g (q.get i)) :
    argminIdx f q = argmaxIdx g q := by
  simp only [argminIdx, argmaxIdx]
  by_cases c1 : f (q.get 1) < f (q.get 0)
  · rw [if_pos c1, if_pos ((h 1 0).mp c1)]
    by_cases c2 : f (q.get 2) < f (q.get 1)
    · rw [if_pos c2, if_pos ((h 2 1).mp c2)]
      by_cases c3 : f (q.get 3) < f (q.get 2)
      · rw [if_pos c3, if_pos ((h 3 2).mp c3)]
      · rw [if_neg c3, if_neg (fun hc => c3 ((h 3 2).mpr hc))]
    · rw [if_neg c2, if_neg (fun hc => c2 ((h 2 1).mpr hc))]
      by_cases c3 : f (q.get 3) < f (q.get 1)
      · rw [if_pos c3, if_pos ((h 3 1).mp c3)]
      · rw [if_neg c3, if_neg (fun hc => c3 ((h 3 1).mpr hc))]
  · rw [if_neg c1, if_neg (fun hc => c1 ((h 1 0).mpr hc))]
    by_cases c2 : f (q.get 2) < f (q.get 0)
    · rw [if_pos c2, if_pos ((h 2 0).mp c2)]
      by_cases c3 : f (q.get 3) < f (q.get 2)
      · rw [if_pos c3, if_pos ((h 3 2).mp c3)]
      · rw [if_neg c3, if_neg (fun hc => c3 ((h 3 2).mpr hc))]
    · rw [if_neg c2, if_neg (fun hc => c2 ((h 2 0).mpr hc))]
      by_cases c3 : f (q.get 3) < f (q.get 0)
      · rw [if_pos c3, if_pos ((h 3 0).mp c3)]
      · rw [if_neg c3, if_neg (fun hc => c3 ((h 3 0).mpr hc))]

lemma argmaxIdx_eq_argminIdx_anti {f g : Pt → ℚ} {q : Quad}
    (h : ∀ i j : Fin 4, f (q.get i) < f (q.get j) ↔ g (q.get j) < g (q.get i)) :
    argmaxIdx f q = argminIdx g q := by
  simp only [argminIdx, argmaxIdx]
  by_cases c1 : f (q.get 0) < f (q.get 1)
  · rw [if_pos c1, if_pos ((h 0 1).mp c1)]
    by_cases c2 : f (q.get 1) < f (q.get 2)
    · rw [if_pos c2, if_pos ((h 1 2).mp c2)]
      by_cases c3 : f (q.get 2) < f (q.get 3)
      · rw [if_pos c3, if_pos ((h 2 3).mp c3)]
      · rw [if_neg c3, if_neg (fun hc => c3 ((h 2 3).mpr hc))]
    · rw [if_neg c2, if_neg (fun hc => c2 ((h 1 2).mpr hc))]
      by_cases c3 : f (q.get 1) < f (q.get 3)
      · rw [if_pos c3, if_pos ((h 1 3).mp c3)]
      · rw [if_neg c3, if_neg (fun hc => c3 ((h 1 3).mpr hc))]
  · rw [if_neg c1, if_neg (fun hc => c1 ((h 0 1).mpr hc))]
    by_cases c2 : f (q.get 0) < f (q.get 2)
    · rw [if_pos c2, if_pos ((h 0 2).mp c2)]
      by_cases c3 : f (q.get 2) < f (q.get 3)
      · rw [if_pos c3, if_pos ((h 2 3).mp c3)]
      · rw [if_neg c3, if_neg (fun hc => c3 ((h 2 3).mpr hc))]
    · rw [if_neg c2, if_neg (fun hc => c2 ((h 0 2).mpr hc))]
      by_cases c3 : f (q.get 0) < f (q.get 3)
      · rw [if_pos c3, if_pos ((h 0 3).mp c3)]
      · rw [if_neg c3, if_neg (fun hc => c3 ((h 0 3).mpr hc))]

lemma width_eq_zero_of_collapse {pts : Quad}
    (h01 : (order_points pts).p1 = (order_points pts).p0)
    (h32 : (order_points pts).p3 = (order_points pts).p2) :
    (calculate_perspective_size pts).1 = 0 := by
  simp only [calculate_perspective_size]
  rw [h01, h32]
  simp

lemma height_eq_zero_of_collapse {pts : Quad}
    (h12 : (order_points pts).p1 = (order_points pts).p2)
    (h03 : (order_points pts).p0 = (order_points pts).p3) :
    (calculate_perspective_size pts).2 = 0 := by
  simp only [calculate_perspective_size]
  rw [h12, h03]
  simp

/-- **C2 (amended).** `calculate_perspective_size` returns the floor of the
larger of the two parallel-edge Euclidean norms per axis (width from
`‖br−bl‖` and `‖tr−tl‖`, height from `‖tr−br‖` and `‖tl−bl‖`, with
`(tl, tr, br, bl)` the ordered points), and for collinear input whose common
line does not have slope `±1` the returned width or height is `0`.  (For a
line of slope exactly `±1` the sum or difference criterion is constant, the
`argmin`/`argmax` ties collapse onto the first point, and neither dimension
need be `0` — see the counterexample.) -/
theorem calculate_perspective_size_spec :
    (∀ pts : Quad,
      ((calculate_perspective_size pts).1 : ℤ) =
        ⌊max (Real.sqrt ((sqnorm (order_points pts).p2 (order_points pts).p3 : ℚ) : ℝ))
             (Real.sqrt ((sqnorm (order_points pts).p1 (order_points pts).p0 : ℚ) : ℝ))⌋ ∧
      ((calculate_perspective_size pts).2 : ℤ) =
        ⌊max (Real.sqrt ((sqnorm (order_points pts).p1 (order_points pts).p2 : ℚ) : ℝ))
             (Real.sqrt ((sqnorm (order_points pts).p0 (order_points pts).p3 : ℚ) : ℝ))⌋) ∧
    (∀ (pts : Quad) (p d : Pt) (t : Fin 4 → ℚ),
      d.x + d.y ≠ 0 → d.y - d.x ≠ 0 →
      (∀ i, pts.get i = ⟨p.x + t i * d.x, p.y + t i * d.y⟩) →
      (calculate_perspective_size pts).1 = 0 ∨ (calculate_perspective_size pts).2 = 0) := by
  constructor
  · intro pts
    constructor
    · simp only [calculate_perspective_size]
      rw [floor_max_sqrt _ _ (sqnorm_nonneg _ _) (sqnorm_nonneg _ _)]
      exact Nat.cast_max _ _
    · simp only [calculate_perspective_size]
      rw [floor_max_sqrt _ _ (sqnorm_nonneg _ _) (sqnorm_nonneg _ _)]
      exact Nat.cast_max _ _
  · intro pts p d t hα hβ hcol
    have hsum : ∀ i, psum (pts.get i) = (p.x + p.y) + t i * (d.x + d.y) := by
      intro i
      rw [hcol i]
      simp only [psum]
      ring
    have hdiff : ∀ i, pdiff (pts.get i) = (p.y - p.x) + t i * (d.y - d.x) := by
      intro i
      rw [hcol i]
      simp only [pdiff]
      ring
    rcases hα.lt_or_lt with hαn | hαp <;> rcases hβ.lt_or_lt with hβn | hβp
    · -- both criteria strictly decreasing in the line parameter: width collapses
      have hiff : ∀ i j : Fin 4,
          psum (pts.get i) < psum (pts.get j) ↔ pdiff (pts.get i) < pdiff (pts.get j) := by
        intro i j
        rw [hsum i, hsum j, hdiff i, hdiff j, add_lt_add_iff_left, add_lt_add_iff_left,
          mul_lt_mul_right_of_neg hαn, mul_lt_mul_right_of_neg hβn]
      left
      refine width_eq_zero_of_collapse ?_ ?_
      · show pts.get (argminIdx pdiff pts) = pts.get (argminIdx psum pts)
        rw [argminIdx_congr hiff]
      · show pts.get (argmaxIdx pdiff pts) = pts.get (argmaxIdx psum pts)
        rw [argmaxIdx_congr hiff]
    · -- sum decreasing, difference increasing: height collapses
      have hiff : ∀ i j : Fin 4,
          psum (pts.get i) < psum (pts.get j) ↔ pdiff (pts.get j) < pdiff (pts.get i) := by
        intro i j
        rw [hsum i, hsum j, hdiff i, hdiff j, add_lt_add_iff_left, add_lt_add_iff_left,
          mul_lt_mul_right_of_neg hαn, mul_lt_mul_right hβp]
      right
      refine height_eq_zero_of_collapse ?_ ?_
      · show pts.get (argminIdx pdiff pts) = pts.get (argmaxIdx psum pts)
        rw [argmaxIdx_eq_argminIdx_anti hiff]
      · show pts.get (argminIdx psum pts) = pts.get (argmaxIdx pdiff pts)
        rw [argminIdx_eq_argmaxIdx_anti hiff]
    · -- sum increasing, difference decreasing: height collapses
      have hiff : ∀ i j : Fin 4,
          psum (pts.get i) < psum (pts.get j) ↔ pdiff (pts.get j) < pdiff (pts.get i) := by
        intro i j
        rw [hsum i, hsum j, hdiff i, hdiff j, add_lt_add_iff_left, add_lt_add_iff_left,
          mul_lt_mul_right hαp, mul_lt_mul_right_of_neg hβn]
      right
      refine height_eq_zero_of_collapse ?_ ?_
      · show pts.get (argminIdx pdiff pts) = pts.get (argmaxIdx psum pts)
        rw [argmaxIdx_eq_argminIdx_anti hiff]
      · show pts.get (argminIdx psum pts) = pts.get (argmaxIdx pdiff pts)
        rw [argminIdx_eq_argmaxIdx_anti hiff]
    · -- both criteria strictly increasing: width collapses
      have hiff : ∀ i j : Fin 4,
          psum (pts.get i) < psum (pts.get j) ↔ pdiff (pts.get i) < pdiff (pts.get j) := by
        intro i j
        rw [hsum i, hsum j, hdiff i, hdiff j, add_lt_add_iff_left, add_lt_add_iff_left,
          mul_lt_mul_right hαp, mul_lt_mul_right hβp]
      left
      refine width_eq_zero_of_collapse ?_ ?_
      · show pts.get (argminIdx pdiff pts) = pts.get (argminIdx psum pts)
        rw [argminIdx_congr hiff]
      · show pts.get (argmaxIdx pdiff pts) = pts.get (argmaxIdx psum pts)
        rw [argmaxIdx_congr hiff]

/-- Four points lying on one line, in parametric form. -/
def CollinearPts (q : Quad) : Prop :=
  ∃ p d : Pt, d ≠ ⟨0, 0⟩ ∧
    ∀ i : Fin 4, ∃ ti : ℚ, q.get i = ⟨p.x + ti * d.x, p.y + ti * d.y⟩

lemma size_of_diag_quad :
    calculate_perspective_size ⟨⟨0, 0⟩, ⟨1, 1⟩, ⟨2, 2⟩, ⟨3, 3⟩⟩ = (4, 4) := by
  have h1 : argminIdx psum ⟨⟨0, 0⟩, ⟨1, 1⟩, ⟨2, 2⟩, ⟨3, 3⟩⟩ = 0 := by
    norm_num [argminIdx, psum]
  have h2 : argminIdx pdiff ⟨⟨0, 0⟩, ⟨1, 1⟩, ⟨2, 2⟩, ⟨3, 3⟩⟩ = 0 := by
    norm_num [argminIdx, pdiff]
  have h3 : argmaxIdx psum ⟨⟨0, 0⟩, ⟨1, 1⟩, ⟨2, 2⟩, ⟨3, 3⟩⟩ = 3 := by
    norm_num [argmaxIdx, psum]
  have h4 : argmaxIdx pdiff ⟨⟨0, 0⟩, ⟨1, 1⟩, ⟨2, 2⟩, ⟨3, 3⟩⟩ = 0 := by
    norm_num [argmaxIdx, pdiff]
  have horder : order_points ⟨⟨0, 0⟩, ⟨1, 1⟩, ⟨2, 2⟩, ⟨3, 3⟩⟩ =
      ⟨⟨0, 0⟩, ⟨0, 0⟩, ⟨3, 3⟩, ⟨0, 0⟩⟩ := by
    simp only [order_points, h1, h2, h3, h4]
    rfl
  have hisq : isqrt 18 = 4 := by
    have he : isqrt 18 = Nat.sqrt 18 := by simp [isqrt]
    rw [he]
    exact natSqrt_eq (by norm_num) (by norm_num)
  simp only [calculate_perspective_size, horder]
  have ha : sqnorm (⟨3, 3⟩ : Pt) ⟨0, 0⟩ = 18 := by norm_num [sqnorm]
  have hb : sqnorm (⟨0, 0⟩ : Pt) ⟨3, 3⟩ = 18 := by norm_num [sqnorm]
  rw [ha, hb]
  rw [show sqnorm (⟨0, 0⟩ : Pt) ⟨0, 0⟩ = 0 from sqnorm_self _, hisq]
  simp

/-- **C2 (counterexample).** The four collinear points
`(0,0), (1,1), (2,2), (3,3)` (slope-1 line) are mapped by
`calculate_perspective_size` to `(4, 4)`: neither the returned width nor the
returned height is `0`, contradicting the claim that collinear input always
yields a zero dimension. -/
theorem calculate_perspective_size_collinear_counterexample :
    CollinearPts ⟨⟨0, 0⟩, ⟨1, 1⟩, ⟨2, 2⟩, ⟨3, 3⟩⟩ ∧
    calculate_perspective_size ⟨⟨0, 0⟩, ⟨1, 1⟩, ⟨2, 2⟩, ⟨3, 3⟩⟩ = (4, 4) ∧
    ¬((calculate_perspective_size ⟨⟨0, 0⟩, ⟨1, 1⟩, ⟨2, 2⟩, ⟨3, 3⟩⟩).1 = 0 ∨
      (calculate_perspective_size ⟨⟨0, 0⟩, ⟨1, 1⟩, ⟨2, 2⟩, ⟨3, 3⟩⟩).2 = 0) := by
  refine ⟨⟨⟨0, 0⟩, ⟨1, 1⟩, ?_, ?_⟩, size_of_diag_quad, ?_⟩
  · intro hcon
    have := congrArg Pt.x hcon
    norm_num at this
  · intro i
    fin_cases i
    · exact ⟨0, by norm_num⟩
    · exact ⟨1, by norm_num⟩
    · exact ⟨2, by norm_num⟩
    · exact ⟨3, by norm_num⟩
  · rw [size_of_diag_quad]
    norm_num

/-! ### correct_perspective_distortion (`app/core/perspective.py`, lines 157–215) -/

/-- The output-dimension computation of `correct_perspective_distortion` when a
target aspect ratio is supplied (source lines 180–192): the first four points
are ordered (`ordered = order_points(points)`, line 181), then
`calculate_perspective_size(ordered)` is computed — that function orders its
input *again* internally, so the quad is ordered twice — then
`current_ratio = width / height` is formed: a zero natural height raises
`ZeroDivisionError`, which the handler converts into returning `None`.
Otherwise if `current_ratio > target` the width shrinks to
`int(height * target)`, else the height shrinks to `int(width / target)`
(`int()` coincides with the floor, all quantities being nonnegative for
positive targets). -/
def correct_perspective_distortion_size (pts : Quad) (target : ℚ) : Option (ℕ × ℕ) :=
  let ordered := order_points pts
  let wh := calculate_perspective_size ordered
  if wh.2 = 0 then none
  else if target < (wh.1 : ℚ) / (wh.2 : ℚ) then
    some (Int.toNat ⌊(wh.2 : ℚ) * target⌋, wh.2)
  else
    some (wh.1, Int.toNat ⌊(wh.1 : ℚ) / target⌋)

lemma order_points_scenario_quad :
    order_points ⟨⟨150, 100⟩, ⟨450, 100⟩, ⟨500, 400⟩, ⟨100, 400⟩⟩ =
      ⟨⟨150, 100⟩, ⟨450, 100⟩, ⟨500, 400⟩, ⟨100, 400⟩⟩ := by
  have h1 : argminIdx psum ⟨⟨150, 100⟩, ⟨450, 100⟩, ⟨500, 400⟩, ⟨100, 400⟩⟩ = 0 := by
    norm_num [argminIdx, psum]
  have h2 : argminIdx pdiff ⟨⟨150, 100⟩, ⟨450, 100⟩, ⟨500, 400⟩, ⟨100, 400⟩⟩ = 1 := by
    norm_num [argminIdx, pdiff]
  have h3 : argmaxIdx psum ⟨⟨150, 100⟩, ⟨450, 100⟩, ⟨500, 400⟩, ⟨100, 400⟩⟩ = 2 := by
    norm_num [argmaxIdx, psum]
  have h4 : argmaxIdx pdiff ⟨⟨150, 100⟩, ⟨450, 100⟩, ⟨500, 400⟩, ⟨100, 400⟩⟩ = 3 := by
    norm_num [argmaxIdx, pdiff]
  simp only [order_points, h1, h2, h3, h4]
  rfl

lemma size_of_scenario_quad :
    calculate_perspective_size ⟨⟨150, 100⟩, ⟨450, 100⟩, ⟨500, 400⟩, ⟨100, 400⟩⟩ =
      (400, 304) := by
  simp only [calculate_perspective_size, order_points_scenario_quad]
  have ha : sqnorm (⟨500, 400⟩ : Pt) ⟨100, 400⟩ = 160000 := by norm_num [sqnorm]
  have hb : sqnorm (⟨450, 100⟩ : Pt) ⟨150, 100⟩ = 90000 := by norm_num [sqnorm]
  have hc : sqnorm (⟨450, 100⟩ : Pt) ⟨500, 400⟩ = 92500 := by norm_num [sqnorm]
  have hd : sqnorm (⟨150, 100⟩ : Pt) ⟨100, 400⟩ = 92500 := by norm_num [sqnorm]
  rw [ha, hb, hc, hd]
  have ia : isqrt 160000 = 400 := by
    rw [show isqrt 160000 = Nat.sqrt 160000 from by simp [isqrt]]
    exact natSqrt_eq (by norm_num) (by norm_num)
  have ib : isqrt 90000 = 300 := by
    rw [show isqrt 90000 = Nat.sqrt 90000 from by simp [isqrt]]
    exact natSqrt_eq (by norm_num) (by norm_num)
  have ic : isqrt 92500 = 304 := by
    rw [show isqrt 92500 = Nat.sqrt 92500 from by simp [isqrt]]
    exact natSqrt_eq (by norm_num) (by norm_num)
  rw [ia, ib, ic]
  simp

/-- Computing `calculate_perspective_size` on the already-ordered scenario
quad (the source orders the quad twice) gives the same `(400, 304)`. -/
lemma size_of_ordered_scenario_quad :
    calculate_perspective_size
        (order_points ⟨⟨150, 100⟩, ⟨450, 100⟩, ⟨500, 400⟩, ⟨100, 400⟩⟩) = (400, 304) := by
  rw [order_points_scenario_quad]
  exact size_of_scenario_quad

/-- **C3.** With a target aspect ratio, `correct_perspective_distortion`
keeps the natural `calculate_perspective_size` estimate -- computed on the
ordered points, the source ordering the quad a second time inside
`calculate_perspective_size` -- on one axis and shrinks the other: when the
natural height is nonzero, if natural `width/height > target` the width
becomes `⌊height * target⌋` with height unchanged, otherwise the height
becomes `⌊width / target⌋` with width unchanged; a zero natural height
raises `ZeroDivisionError` and yields no result.  On the 640×480 scenario
(polygon `[(150,100), (450,100), (500,400), (100,400)]`, target `16/9`) the
output is a `400 × 225` image, whose width/height ratio is within `0.1` of
`1.778`. -/
theorem correct_perspective_distortion_size_spec :
    (∀ (pts : Quad) (target : ℚ),
      ((calculate_perspective_size (order_points pts)).2 ≠ 0 →
        (target < ((calculate_perspective_size (order_points pts)).1 : ℚ) /
            ((calculate_perspective_size (order_points pts)).2 : ℚ) →
          correct_perspective_distortion_size pts target =
            some (Int.toNat
                ⌊((calculate_perspective_size (order_points pts)).2 : ℚ) * target⌋,
              (calculate_perspective_size (order_points pts)).2)) ∧
        (((calculate_perspective_size (order_points pts)).1 : ℚ) /
            ((calculate_perspective_size (order_points pts)).2 : ℚ) ≤ target →
          correct_perspective_distortion_size pts target =
            some ((calculate_perspective_size (order_points pts)).1,
              Int.toNat
                ⌊((calculate_perspective_size (order_points pts)).1 : ℚ) / target⌋))) ∧
      ((calculate_perspective_size (order_points pts)).2 = 0 →
        correct_perspective_distortion_size pts target = none)) ∧
    (correct_perspective_distortion_size
        ⟨⟨150, 100⟩, ⟨450, 100⟩, ⟨500, 400⟩, ⟨100, 400⟩⟩ (16 / 9) = some (400, 225) ∧
      |(400 : ℚ) / 225 - 1778 / 1000| < 1 / 10) := by
  have hgen : ∀ (pts : Quad) (target : ℚ),
      ((calculate_perspective_size (order_points pts)).2 ≠ 0 →
        (target < ((calculate_perspective_size (order_points pts)).1 : ℚ) /
            ((calculate_perspective_size (order_points pts)).2 : ℚ) →
          correct_perspective_distortion_size pts target =
            some (Int.toNat
                ⌊((calculate_perspective_size (order_points pts)).2 : ℚ) * target⌋,
              (calculate_perspective_size (order_points pts)).2)) ∧
        (((calculate_perspective_size (order_points pts)).1 : ℚ) /
            ((calculate_perspective_size (order_points pts)).2 : ℚ) ≤ target →
          correct_perspective_distortion_size pts target =
            some ((calculate_perspective_size (order_points pts)).1,
              Int.toNat
                ⌊((calculate_perspective_size (order_points pts)).1 : ℚ) / target⌋))) ∧
      ((calculate_perspective_size (order_points pts)).2 = 0 →
        correct_perspective_distortion_size pts target = none) := by
    intro pts target
    refine ⟨fun hne => ⟨?_, ?_⟩, fun h0 => ?_⟩
    · intro h
      simp only [correct_perspective_distortion_size]
      rw [if_neg hne, if_pos h]
    · intro h
      simp only [correct_perspective_distortion_size]
      rw [if_neg hne, if_neg (not_lt.mpr h)]
    · simp only [correct_perspective_distortion_size]
      rw [if_pos h0]
  refine ⟨hgen, ?_, ?_⟩
  · have h := ((hgen ⟨⟨150, 100⟩, ⟨450, 100⟩, ⟨500, 400⟩, ⟨100, 400⟩⟩ (16 / 9)).1
      (by rw [size_of_ordered_scenario_quad]; norm_num)).2
      (by rw [size_of_ordered_scenario_quad]; norm_num)
    rw [size_of_ordered_scenario_quad] at h
    rw [h]
    have h225 : ((((400, 304) : ℕ × ℕ).1 : ℕ) : ℚ) / (16 / 9) = 225 := by norm_num
    rw [h225]
    norm_num
    rfl
  · rw [abs_lt]
    constructor <;> norm_num

/-- Witness for C3: at the scenario polygon the doubly ordered natural size
is `(400, 304)`, the height is nonzero, the ratio `400/304` does not exceed
`16/9`, and the height is shrunk to `⌊400 / (16/9)⌋` with the width kept. -/
theorem correct_perspective_distortion_size_spec_witness :
    correct_perspective_distortion_size
        ⟨⟨150, 100⟩, ⟨450, 100⟩, ⟨500, 400⟩, ⟨100, 400⟩⟩ (16 / 9) =
      some ((calculate_perspective_size
          (order_points ⟨⟨150, 100⟩, ⟨450, 100⟩, ⟨500, 400⟩, ⟨100, 400⟩⟩)).1,
        Int.toNat ⌊((calculate_perspective_size
          (order_points ⟨⟨150, 100⟩, ⟨450, 100⟩, ⟨500, 400⟩, ⟨100, 400⟩⟩)).1 : ℚ) /
            (16 / 9)⌋) :=
  ((correct_perspective_distortion_size_spec.1
      ⟨⟨150, 100⟩, ⟨450, 100⟩, ⟨500, 400⟩, ⟨100, 400⟩⟩ (16 / 9)).1
      (by rw [size_of_ordered_scenario_quad]; norm_num)).2
    (by rw [size_of_ordered_scenario_quad]; norm_num)

/-- Witness for C2's collinearity clause at the horizontal line
`(0,0), (1,0), (2,0), (3,0)`. -/
theorem calculate_perspective_size_spec_witness :
    (calculate_perspective_size ⟨⟨0, 0⟩, ⟨1, 0⟩, ⟨2, 0⟩, ⟨3, 0⟩⟩).1 = 0 ∨
    (calculate_perspective_size ⟨⟨0, 0⟩, ⟨1, 0⟩, ⟨2, 0⟩, ⟨3, 0⟩⟩).2 = 0 := by
  refine calculate_perspective_size_spec.2 ⟨⟨0, 0⟩, ⟨1, 0⟩, ⟨2, 0⟩, ⟨3, 0⟩⟩
    ⟨0, 0⟩ ⟨1, 0⟩ (fun i => (i.val : ℚ)) (by norm_num) (by norm_num) ?_
  intro i
  fin_cases i
  · show Quad.get _ ⟨0, _⟩ = _
    norm_num
  · show Quad.get _ ⟨1, _⟩ = _
    norm_num
  · show Quad.get _ ⟨2, _⟩ = _
    norm_num
  · show Quad.get _ ⟨3, _⟩ = _
    norm_num

/-! ### Image model -/

/-- An image buffer: explicit height and width and an integer sample at each
position (uint8 values in the source; one channel is modelled — the source
applies the identical operation to each of the three channels). -/
structure Img where
  h : ℕ
  w : ℕ
  pix : ℕ → ℕ → ℤ

/-! ### apply_homography (`app/core/perspective.py`, lines 217–263) -/

/-- `apply_homography`: rejects point sets that do not contain exactly 4
points each, then defers to `cv2.findHomography` (parameter `findH`, which
returns nothing when the estimator cannot produce a homography) and
`cv2.warpPerspective` (parameter `warp`, called with the `(width, height)`
swap of `output_shape`); both are external library routines. -/
def apply_homography {M : Type} (findH : List Pt → List Pt → Option M)
    (warp : Img → M → ℕ × ℕ → Img) (image : Img) (src dst : List Pt)
    (outputShape : ℕ × ℕ) : Option Img :=
  if src.length ≠ 4 ∨ dst.length ≠ 4 then none
  else
    match findH src dst with
    | none => none
    | some m => some (warp image m (outputShape.2, outputShape.1))

/-- **C4.** `apply_homography` returns no result — without raising — whenever
the source or destination point set does not contain exactly 4 points,
regardless of the image, the output shape, or how the external homography
estimator and warper behave. -/
theorem apply_homography_wrong_count {M : Type} (findH : List Pt → List Pt → Option M)
    (warp : Img → M → ℕ × ℕ → Img) (image : Img) (src dst : List Pt)
    (outputShape : ℕ × ℕ) (h : src.length ≠ 4 ∨ dst.length ≠ 4) :
    apply_homography findH warp image src dst outputShape = none := by
  simp only [apply_homography]
  rw [if_pos h]

/-- Witness for C4: two points in each of `src` and `dst` yield no result. -/
theorem apply_homography_wrong_count_witness :
    apply_homography (fun _ _ => (none : Option Unit)) (fun i _ _ => i)
      ⟨1, 1, fun _ _ => 0⟩ [⟨0, 0⟩, ⟨1, 1⟩] [⟨2, 2⟩, ⟨3, 3⟩] (480, 640) = none :=
  apply_homography_wrong_count _ _ _ _ _ _ (Or.inl (by simp))

/-! ### ScreenEditor.replace_screen_with_image (`app/core/screen_editor.py`, lines 73–142) -/

/-- Positions `(row, col)` whose mask sample exceeds the fixed binarisation
threshold 127, in row-major order (`np.where(mask > 127)`). -/
def maskPositives (mask : Img) : List (ℕ × ℕ) :=
  (List.range mask.h).flatMap fun r =>
    (List.range mask.w).filterMap fun c =>
      if 127 < mask.pix r c then some (r, c) else none

/-- Minimum of a list of naturals, as numpy `.min()` on a nonempty index
array (the `[]` case is never reached by the guarded callers). -/
def listMin : List ℕ → ℕ
  | [] => 0
  | a :: t => t.foldl min a

/-- Maximum of a list of naturals, as numpy `.max()`. -/
def listMax : List ℕ → ℕ
  | [] => 0
  | a :: t => t.foldl max a

/-- `x_min` over the mask-positive pixels (source line 105). -/
def maskXmin (mask : Img) : ℕ := listMin ((maskPositives mask).map Prod.snd)

/-- `x_max` over the mask-positive pixels (source line 105). -/
def maskXmax (mask : Img) : ℕ := listMax ((maskPositives mask).map Prod.snd)

/-- `y_min` over the mask-positive pixels (source line 106). -/
def maskYmin (mask : Img) : ℕ := listMin ((maskPositives mask).map Prod.fst)

/-- `y_max` over the mask-positive pixels (source line 106). -/
def maskYmax (mask : Img) : ℕ := listMax ((maskPositives mask).map Prod.fst)

/-- The dimensions `(width, height) = (x_max - x_min, y_max - y_min)` to
which the screen content is resized (source lines 108–116): note the maximum
coordinate itself is excluded, matching the `[y_min:y_max, x_min:x_max]`
slices used afterwards. -/
def contentResizeDims (mask : Img) : ℕ × ℕ :=
  (maskXmax mask - maskXmin mask, maskYmax mask - maskYmin mask)

/-- Truncation of a blended float sample back to an integer (`.astype(np.uint8)`;
blend weights in `[0, 1]` keep the value in the nonnegative sample range, where
numpy's cast is the floor). -/
def truncPix (v : ℚ) : ℤ := ⌊v⌋

/-- `replace_screen_with_image` (source lines 73–142).  `resize` stands for
`cv2.resize(screen_content, (width, height), INTER_LANCZOS4)` and `gblur` for
the 5×5 Gaussian blur of the mask region divided pointwise by 255 afterwards
(the blur returns continuous values, modelled as exact rationals); both are
external library routines.  An empty thresholded mask returns the original
`laptop` buffer itself. -/
def replace_screen_with_image (resize : Img → ℕ → ℕ → Img)
    (gblur : Img → ℕ → ℕ → ℚ) (laptop mask content : Img) (blend : Bool) : Img :=
  if (maskPositives mask).isEmpty then laptop
  else
    let xmin := maskXmin mask
    let xmax := maskXmax mask
    let ymin := maskYmin mask
    let ymax := maskYmax mask
    let screenResized := resize content (contentResizeDims mask).1 (contentResizeDims mask).2
    let maskRegion : Img :=
      ⟨ymax - ymin, xmax - xmin, fun r c => mask.pix (r + ymin) (c + xmin)⟩
    if blend then
      ⟨laptop.h, laptop.w, fun r c =>
        if ymin ≤ r ∧ r < ymax ∧ xmin ≤ c ∧ c < xmax then
          truncPix ((screenResized.pix (r - ymin) (c - xmin) : ℚ) *
              (gblur maskRegion (r - ymin) (c - xmin) / 255) +
            (laptop.pix r c : ℚ) * (1 - gblur maskRegion (r - ymin) (c - xmin) / 255))
        else laptop.pix r c⟩
    else
      ⟨laptop.h, laptop.w, fun r c =>
        if (ymin ≤ r ∧ r < ymax ∧ xmin ≤ c ∧ c < xmax) ∧
            127 < maskRegion.pix (r - ymin) (c - xmin) then
          screenResized.pix (r - ymin) (c - xmin)
        else laptop.pix r c⟩

/-- **C5.** When no mask sample exceeds 127, the axis-aligned screen
replacement is a no-op: it returns the original laptop image itself, for
every content image and blend flag, and for arbitrary behaviour of the
external resize and blur routines. -/
theorem replace_screen_empty_mask_noop (resize : Img → ℕ → ℕ → Img)
    (gblur : Img → ℕ → ℕ → ℚ) (laptop mask content : Img) (blend : Bool)
    (hmask : ∀ r c, r < mask.h → c < mask.w → mask.pix r c ≤ 127) :
    replace_screen_with_image resize gblur laptop mask content blend = laptop := by
  have hpos : maskPositives mask = [] := by
    rw [List.eq_nil_iff_forall_not_mem]
    intro x hx
    simp only [maskPositives, List.mem_flatMap, List.mem_filterMap, List.mem_range] at hx
    obtain ⟨r, hr, c, hc, hcx⟩ := hx
    by_cases hgt : 127 < mask.pix r c
    · exact absurd hgt (not_lt.mpr (hmask r c hr hc))
    · rw [if_neg hgt] at hcx
      exact Option.noConfusion hcx
  simp only [replace_screen_with_image, hpos]
  rfl

/-- Witness for C5 at a concrete all-zero 2×2 mask. -/
theorem replace_screen_empty_mask_noop_witness :
    replace_screen_with_image (fun _ w h => ⟨h, w, fun _ _ => 0⟩) (fun _ _ _ => 0)
      ⟨2, 2, fun _ _ => 7⟩ ⟨2, 2, fun _ _ => 0⟩ ⟨2, 2, fun _ _ => 9⟩ true =
      ⟨2, 2, fun _ _ => 7⟩ :=
  replace_screen_empty_mask_noop _ _ _ _ _ _ (fun _ _ _ _ => by norm_num)

/-- **C6 (amended).** When the mask has a sample above 127, the content image
is resized to `(x_max − x_min) × (y_max − y_min)` — one less per axis than
the inclusive bounding-rectangle size of the mask-positive pixels, the
maximum coordinate being excluded: the output depends on the external resize
routine only through its value at exactly those dimensions — and only pixels
`(r, c)` with `y_min ≤ r < y_max` and `x_min ≤ c < x_max` are affected, the
image dimensions being preserved. -/
theorem replace_screen_bbox_spec (resize resize' : Img → ℕ → ℕ → Img)
    (gblur : Img → ℕ → ℕ → ℚ) (laptop mask content : Img) (blend : Bool)
    (hne : maskPositives mask ≠ []) :
    (resize content (contentResizeDims mask).1 (contentResizeDims mask).2 =
        resize' content (contentResizeDims mask).1 (contentResizeDims mask).2 →
      replace_screen_with_image resize gblur laptop mask content blend =
        replace_screen_with_image resize' gblur laptop mask content blend) ∧
    (replace_screen_with_image resize gblur laptop mask content blend).h = laptop.h ∧
    (replace_screen_with_image resize gblur laptop mask content blend).w = laptop.w ∧
    (∀ r c,
      r < maskYmin mask ∨ maskYmax mask ≤ r ∨ c < maskXmin mask ∨ maskXmax mask ≤ c →
      (replace_screen_with_image resize gblur laptop mask content blend).pix r c =
        laptop.pix r c) := by
  obtain ⟨a, t, hpos⟩ : ∃ a t, maskPositives mask = a :: t := by
    cases h : maskPositives mask with
    | nil => exact absurd h hne
    | cons a t => exact ⟨a, t, rfl⟩
  refine ⟨?_, ?_, ?_, ?_⟩
  · intro hagree
    simp only [replace_screen_with_image, hagree]
  · simp only [replace_screen_with_image, hpos, List.isEmpty_cons]
    cases blend <;> rfl
  · simp only [replace_screen_with_image, hpos, List.isEmpty_cons]
    cases blend <;> rfl
  · intro r c ho
    simp only [replace_screen_with_image, hpos, List.isEmpty_cons]
    cases blend
    · show (if _ then _ else laptop.pix r c) = laptop.pix r c
      rw [if_neg]
      rintro ⟨⟨h1, h2, h3, h4⟩, -⟩
      rcases ho with h | h | h | h <;> omega
    · show (if _ then _ else laptop.pix r c) = laptop.pix r c
      rw [if_neg]
      rintro ⟨h1, h2, h3, h4⟩
      rcases ho with h | h | h | h <;> omega

/-- **C6 (counterexample).** For the 4×4 mask positive exactly at `(1,1)` and
`(3,3)`, the inclusive bounding rectangle spans 3×3 pixels, but the content
is resized to 2×2: two resize routines that agree at 3×3 (and everywhere
except 2×2) produce different outputs, so the content is not resized to the
inclusive rectangle size the claim states. -/
theorem replace_screen_bbox_counterexample :
    contentResizeDims
        ⟨4, 4, fun r c => if (r = 1 ∧ c = 1) ∨ (r = 3 ∧ c = 3) then 255 else 0⟩ =
      (2, 2) ∧
    (maskXmax ⟨4, 4, fun r c => if (r = 1 ∧ c = 1) ∨ (r = 3 ∧ c = 3) then 255 else 0⟩ -
        maskXmin ⟨4, 4, fun r c => if (r = 1 ∧ c = 1) ∨ (r = 3 ∧ c = 3) then 255 else 0⟩ + 1,
     maskYmax ⟨4, 4, fun r c => if (r = 1 ∧ c = 1) ∨ (r = 3 ∧ c = 3) then 255 else 0⟩ -
        maskYmin ⟨4, 4, fun r c => if (r = 1 ∧ c = 1) ∨ (r = 3 ∧ c = 3) then 255 else 0⟩ + 1) =
      (3, 3) ∧
    (fun (_ : Img) (w h : ℕ) => (⟨h, w, fun _ _ => 42⟩ : Img)) ⟨4, 4, fun _ _ => 9⟩ 3 3 =
      (fun (_ : Img) (w h : ℕ) =>
        if w = 2 ∧ h = 2 then (⟨h, w, fun _ _ => 300⟩ : Img) else ⟨h, w, fun _ _ => 42⟩)
        ⟨4, 4, fun _ _ => 9⟩ 3 3 ∧
    (replace_screen_with_image (fun _ w h => ⟨h, w, fun _ _ => 42⟩) (fun _ _ _ => 0)
        ⟨4, 4, fun _ _ => 7⟩
        ⟨4, 4, fun r c => if (r = 1 ∧ c = 1) ∨ (r = 3 ∧ c = 3) then 255 else 0⟩
        ⟨4, 4, fun _ _ => 9⟩ false).pix 1 1 = 42 ∧
    (replace_screen_with_image
        (fun _ w h =>
          if w = 2 ∧ h = 2 then (⟨h, w, fun _ _ => 300⟩ : Img) else ⟨h, w, fun _ _ => 42⟩)
        (fun _ _ _ => 0) ⟨4, 4, fun _ _ => 7⟩
        ⟨4, 4, fun r c => if (r = 1 ∧ c = 1) ∨ (r = 3 ∧ c = 3) then 255 else 0⟩
        ⟨4, 4, fun _ _ => 9⟩ false).pix 1 1 = 300 := by
  refine ⟨by decide, by decide, rfl, by decide, by decide⟩

/-- Witness for C6 at the same concrete mask: the pixel `(0, 0)` lies outside
the processed rectangle and is unchanged. -/
theorem replace_screen_bbox_spec_witness :
    (replace_screen_with_image (fun _ w h => ⟨h, w, fun _ _ => 42⟩) (fun _ _ _ => 0)
        ⟨4, 4, fun _ _ => 7⟩
        ⟨4, 4, fun r c => if (r = 1 ∧ c = 1) ∨ (r = 3 ∧ c = 3) then 255 else 0⟩
        ⟨4, 4, fun _ _ => 9⟩ false).pix 0 0 =
      (⟨4, 4, fun _ _ => 7⟩ : Img).pix 0 0 :=
  (replace_screen_bbox_spec (fun _ w h => ⟨h, w, fun _ _ => 42⟩)
      (fun _ w h => ⟨h, w, fun _ _ => 42⟩) (fun _ _ _ => 0) ⟨4, 4, fun _ _ => 7⟩
      ⟨4, 4, fun r c => if (r = 1 ∧ c = 1) ∨ (r = 3 ∧ c = 3) then 255 else 0⟩
      ⟨4, 4, fun _ _ => 9⟩ false (by decide)).2.2.2 0 0 (Or.inl (by decide))

/-! ### ImageCropper.crop_to_aspect_ratio (`app/core/cropper.py`, lines 109–155) -/

/-- `crop_to_aspect_ratio` (source lines 109–155): pass through when the
current width/height ratio is within `0.01` of the target; otherwise crop the
oversized axis to `int(h * ratio)` columns (resp. `int(w / ratio)` rows),
centred or left/top-anchored.  Python's `int()` truncation and `//` agree
with the floor and natural division used here because all quantities are
nonnegative for the positive ratios the callers use. -/
def crop_to_aspect_ratio (img : Img) (ratio : ℚ) (fromCenter : Bool) : Img :=
  let cur : ℚ := (img.w : ℚ) / (img.h : ℚ)
  if |cur - ratio| < 1 / 100 then img
  else if ratio < cur then
    let nw := Int.toNat ⌊(img.h : ℚ) * ratio⌋
    let xs := if fromCenter then (img.w - nw) / 2 else 0
    ⟨img.h, nw, fun r c => img.pix r (c + xs)⟩
  else
    let nh := Int.toNat ⌊(img.w : ℚ) / ratio⌋
    let ys := if fromCenter then (img.h - nh) / 2 else 0
    ⟨nh, img.w, fun r c => img.pix (r + ys) c⟩

lemma ratFloor_eq (x : ℚ) (z : ℤ) (h1 : (z : ℚ) ≤ x) (h2 : x < z + 1) : ⌊x⌋ = z :=
  Int.floor_eq_iff.mpr ⟨h1, h2⟩

lemma abs_floor_sub_lt_one (x : ℚ) : |(⌊x⌋ : ℚ) - x| < 1 := by
  rw [abs_lt]
  constructor
  · linarith [Int.lt_floor_add_one x]
  · linarith [Int.floor_le x]

lemma not_abs_lt_of_le {x c : ℚ} (h : c ≤ x) : ¬|x| < c :=
  not_lt.mpr (h.trans (le_abs_self x))

lemma not_abs_lt_of_le_neg {x c : ℚ} (h : c ≤ -x) : ¬|x| < c :=
  not_lt.mpr (h.trans (neg_le_abs x))

/-- **C7 (amended).** `crop_to_aspect_ratio` passes the image through
unchanged when its ratio is already within `0.01` of the target; otherwise it
crops the oversized axis — to `⌊h·ratio⌋` columns when too wide (output ratio
then within `1/h` of the target), or to `⌊w/ratio⌋` rows when too tall
(output ratio then within `ratio/⌊w/ratio⌋` of the target whenever that row
count is positive) — centred or left/top-anchored per `from_center`.  The
claimed universal `0.01` tolerance of the output does not hold for small
images (see the counterexample). -/
theorem crop_to_aspect_ratio_spec (img : Img) (ratio : ℚ) (fc : Bool)
    (hh : 0 < img.h) (hw : 0 < img.w) (hr : 0 < ratio) :
    (|(img.w : ℚ) / (img.h : ℚ) - ratio| < 1 / 100 →
      crop_to_aspect_ratio img ratio fc = img) ∧
    (¬|(img.w : ℚ) / (img.h : ℚ) - ratio| < 1 / 100 →
      ratio < (img.w : ℚ) / (img.h : ℚ) →
      (crop_to_aspect_ratio img ratio fc).h = img.h ∧
      (crop_to_aspect_ratio img ratio fc).w = Int.toNat ⌊(img.h : ℚ) * ratio⌋ ∧
      |((crop_to_aspect_ratio img ratio fc).w : ℚ) /
          ((crop_to_aspect_ratio img ratio fc).h : ℚ) - ratio| < 1 / (img.h : ℚ) ∧
      (∀ r c, (crop_to_aspect_ratio img ratio fc).pix r c =
        img.pix r (c + (if fc then (img.w - Int.toNat ⌊(img.h : ℚ) * ratio⌋) / 2 else 0)))) ∧
    (¬|(img.w : ℚ) / (img.h : ℚ) - ratio| < 1 / 100 →
      (img.w : ℚ) / (img.h : ℚ) ≤ ratio →
      (crop_to_aspect_ratio img ratio fc).w = img.w ∧
      (crop_to_aspect_ratio img ratio fc).h = Int.toNat ⌊(img.w : ℚ) / ratio⌋ ∧
      (0 < (crop_to_aspect_ratio img ratio fc).h →
        |((crop_to_aspect_ratio img ratio fc).w : ℚ) /
            ((crop_to_aspect_ratio img ratio fc).h : ℚ) - ratio| <
          ratio / ((crop_to_aspect_ratio img ratio fc).h : ℚ)) ∧
      (∀ r c, (crop_to_aspect_ratio img ratio fc).pix r c =
        img.pix (r + (if fc then (img.h - Int.toNat ⌊(img.w : ℚ) / ratio⌋) / 2 else 0)) c)) := by
  have hhq : (0 : ℚ) < (img.h : ℚ) := by exact_mod_cast hh
  refine ⟨?_, ?_, ?_⟩
  · intro htol
    simp only [crop_to_aspect_ratio]
    rw [if_pos htol]
  · intro htol hgt
    have hcrop : crop_to_aspect_ratio img ratio fc =
        ⟨img.h, Int.toNat ⌊(img.h : ℚ) * ratio⌋,
         fun r c => img.pix r
           (c + (if fc then (img.w - Int.toNat ⌊(img.h : ℚ) * ratio⌋) / 2 else 0))⟩ := by
      simp only [crop_to_aspect_ratio]
      rw [if_neg htol, if_pos hgt]
    rw [hcrop]
    have hfl0 : (0 : ℤ) ≤ ⌊(img.h : ℚ) * ratio⌋ := by
      apply Int.floor_nonneg.mpr
      positivity
    have hcast : ((Int.toNat ⌊(img.h : ℚ) * ratio⌋ : ℕ) : ℚ) = (⌊(img.h : ℚ) * ratio⌋ : ℚ) := by
      exact_mod_cast congrArg (fun z : ℤ => (z : ℚ)) (Int.toNat_of_nonneg hfl0)
    refine ⟨rfl, rfl, ?_, fun r c => rfl⟩
    show |((Int.toNat ⌊(img.h : ℚ) * ratio⌋ : ℕ) : ℚ) / ((img.h : ℕ) : ℚ) - ratio| <
      1 / (img.h : ℚ)
    rw [hcast]
    have he : (⌊(img.h : ℚ) * ratio⌋ : ℚ) / (img.h : ℚ) - ratio =
        ((⌊(img.h : ℚ) * ratio⌋ : ℚ) - (img.h : ℚ) * ratio) / (img.h : ℚ) := by
      field_simp
    rw [he, abs_div, abs_of_pos hhq, div_lt_div_iff_of_pos_right hhq]
    exact abs_floor_sub_lt_one _
  · intro htol hle
    have hlt : (img.w : ℚ) / (img.h : ℚ) < ratio := by
      rcases lt_or_eq_of_le hle with h | h
      · exact h
      · exfalso
        apply htol
        rw [h]
        simp
    have hcrop : crop_to_aspect_ratio img ratio fc =
        ⟨Int.toNat ⌊(img.w : ℚ) / ratio⌋, img.w,
         fun r c => img.pix
           (r + (if fc then (img.h - Int.toNat ⌊(img.w : ℚ) / ratio⌋) / 2 else 0)) c⟩ := by
      simp only [crop_to_aspect_ratio]
      rw [if_neg htol, if_neg (not_lt.mpr hle)]
    rw [hcrop]
    have hfl0 : (0 : ℤ) ≤ ⌊(img.w : ℚ) / ratio⌋ := by
      apply Int.floor_nonneg.mpr
      positivity
    have hcast : ((Int.toNat ⌊(img.w : ℚ) / ratio⌋ : ℕ) : ℚ) = (⌊(img.w : ℚ) / ratio⌋ : ℚ) := by
      exact_mod_cast congrArg (fun z : ℤ => (z : ℚ)) (Int.toNat_of_nonneg hfl0)
    refine ⟨rfl, rfl, ?_, fun r c => rfl⟩
    intro hnh
    have hnhq : (0 : ℚ) < ((Int.toNat ⌊(img.w : ℚ) / ratio⌋ : ℕ) : ℚ) := by
      exact_mod_cast hnh
    show |((img.w : ℕ) : ℚ) / ((Int.toNat ⌊(img.w : ℚ) / ratio⌋ : ℕ) : ℚ) - ratio| <
      ratio / ((Int.toNat ⌊(img.w : ℚ) / ratio⌋ : ℕ) : ℚ)
    rw [hcast] at hnhq ⊢
    have hfle : (⌊(img.w : ℚ) / ratio⌋ : ℚ) ≤ (img.w : ℚ) / ratio := Int.floor_le _
    have hflt : (img.w : ℚ) / ratio < (⌊(img.w : ℚ) / ratio⌋ : ℚ) + 1 := Int.lt_floor_add_one _
    have hge : ratio ≤ (img.w : ℚ) / (⌊(img.w : ℚ) / ratio⌋ : ℚ) := by
      rw [le_div_iff₀ hnhq]
      calc ratio * (⌊(img.w : ℚ) / ratio⌋ : ℚ) ≤ ratio * ((img.w : ℚ) / ratio) := by
            apply mul_le_mul_of_nonneg_left hfle (le_of_lt hr)
      _ = (img.w : ℚ) := by field_simp
    have hub : (img.w : ℚ) / (⌊(img.w : ℚ) / ratio⌋ : ℚ) - ratio <
        ratio / (⌊(img.w : ℚ) / ratio⌋ : ℚ) := by
      rw [div_sub' _ _ _ (ne_of_gt hnhq), div_lt_div_iff_of_pos_right hnhq]
      have : (img.w : ℚ) < ratio * ((⌊(img.w : ℚ) / ratio⌋ : ℚ) + 1) := by
        calc (img.w : ℚ) = ratio * ((img.w : ℚ) / ratio) := by field_simp
        _ < ratio * ((⌊(img.w : ℚ) / ratio⌋ : ℚ) + 1) := by
              apply mul_lt_mul_of_pos_left hflt hr
      linarith [this]
    rw [abs_of_nonneg (by linarith [hge])]
    exact hub

/-- **C7 (counterexample).** A 6×3 image cropped to ratio `3/2` yields a 4×3
output whose ratio `4/3` differs from the target by `1/6 ≥ 0.01`, refuting
the claimed universal `abs(w/h − ratio) < 0.01` bound. -/
theorem crop_to_aspect_ratio_counterexample :
    (crop_to_aspect_ratio ⟨3, 6, fun _ _ => 0⟩ (3 / 2) true).h = 3 ∧
    (crop_to_aspect_ratio ⟨3, 6, fun _ _ => 0⟩ (3 / 2) true).w = 4 ∧
    ¬|((crop_to_aspect_ratio ⟨3, 6, fun _ _ => 0⟩ (3 / 2) true).w : ℚ) /
        ((crop_to_aspect_ratio ⟨3, 6, fun _ _ => 0⟩ (3 / 2) true).h : ℚ) - 3 / 2| <
      1 / 100 := by
  have hfl : ⌊(((3 : ℕ) : ℚ)) * (3 / 2)⌋ = 4 := by
    rw [show ((3 : ℕ) : ℚ) = 3 by norm_num]
    exact ratFloor_eq _ 4 (by norm_num) (by norm_num)
  have hcrop : crop_to_aspect_ratio ⟨3, 6, fun _ _ => 0⟩ (3 / 2) true =
      ⟨3, 4, fun r c => (⟨3, 6, fun _ _ => 0⟩ : Img).pix r (c + 1)⟩ := by
    simp only [crop_to_aspect_ratio]
    rw [if_neg (not_abs_lt_of_le (by norm_num)), if_pos (by norm_num), hfl]
    rfl
  rw [hcrop]
  exact ⟨rfl, rfl, not_abs_lt_of_le_neg (by norm_num)⟩

/-- Witness for C7 at a 100×200 all-grey image with target ratio 1: the
image is too wide, so it is cropped to `⌊100·1⌋ = 100` columns, centred. -/
theorem crop_to_aspect_ratio_spec_witness :
    (crop_to_aspect_ratio ⟨100, 200, fun _ _ => 5⟩ 1 true).h = 100 ∧
    (crop_to_aspect_ratio ⟨100, 200, fun _ _ => 5⟩ 1 true).w =
      Int.toNat ⌊((100 : ℕ) : ℚ) * 1⌋ :=
  let H := (crop_to_aspect_ratio_spec ⟨100, 200, fun _ _ => 5⟩ 1 true
    (by norm_num) (by norm_num) (by norm_num)).2.1
    (not_abs_lt_of_le (by norm_num)) (by norm_num)
  ⟨H.1, H.2.1⟩

/-! ### ImageResizer.resize_to_fit / resize_to_fill (`app/core/resizer.py`, lines 108–214) -/

/-- `ImageResizer.resize` with both target dimensions and `maintain_aspect=True`,
as invoked by `resize_to_fit` (source lines 34–65): the fit-inside scale is the
minimum of the two per-axis scales, each new dimension is `int(dim * scale)`.
`cv2.resize` (parameter `cvr`) rejects an empty target size, and the
function's exception handler then returns the original image — modelled by
the zero test before the call. -/
def repoResize (cvr : Img → ℕ → ℕ → Img) (img : Img) (tw th : ℕ) : Img :=
  let scale : ℚ := min ((tw : ℚ) / (img.w : ℚ)) ((th : ℚ) / (img.h : ℚ))
  let nw := Int.toNat ⌊(img.w : ℚ) * scale⌋
  let nh := Int.toNat ⌊(img.h : ℚ) * scale⌋
  if nw = 0 ∨ nh = 0 then img else cvr img nw nh

/-- `resize_to_fit` (source lines 108–160): aspect-preserving resize, then —
unless the result already matches the target — placement at
`((tw − w')//2, (th − h')//2)` on a `th × tw` canvas filled with the padding
colour.  When a resized dimension exceeds its target, the Python offset is
negative and the numpy slice assignment raises a `ValueError` over mismatched
shapes, which the handler converts into returning the original image; the
second guard models exactly that success criterion. -/
def resize_to_fit (cvr : Img → ℕ → ℕ → Img) (img : Img) (tw th : ℕ) (pad : ℤ) : Img :=
  let resized := repoResize cvr img tw th
  if resized.w = tw ∧ resized.h = th then resized
  else if resized.w ≤ tw ∧ resized.h ≤ th then
    let xo := (tw - resized.w) / 2
    let yo := (th - resized.h) / 2
    ⟨th, tw, fun r c =>
      if yo ≤ r ∧ r < yo + resized.h ∧ xo ≤ c ∧ c < xo + resized.w then
        resized.pix (r - yo) (c - xo)
      else pad⟩
  else img

/-- `resize_to_fill` (source lines 162–214): scale to cover (height-matching
scale when the current ratio exceeds the target ratio, width-matching
otherwise), resize to `(int(w*scale), int(h*scale))` — an empty size makes
`cv2.resize` raise and the handler return the original — then centre-crop
each axis that exceeds its target. -/
def resize_to_fill (cvr : Img → ℕ → ℕ → Img) (img : Img) (tw th : ℕ) : Img :=
  let scale : ℚ :=
    if (tw : ℚ) / (th : ℚ) < (img.w : ℚ) / (img.h : ℚ) then (th : ℚ) / (img.h : ℚ)
    else (tw : ℚ) / (img.w : ℚ)
  let nw := Int.toNat ⌊(img.w : ℚ) * scale⌋
  let nh := Int.toNat ⌊(img.h : ℚ) * scale⌋
  if nw = 0 ∨ nh = 0 then img
  else
    let resized := cvr img nw nh
    let r2 : Img :=
      if tw < nw then ⟨resized.h, tw, fun r c => resized.pix r (c + (nw - tw) / 2)⟩
      else resized
    if th < nh then ⟨th, r2.w, fun r c => r2.pix (r + (nh - th) / 2) c⟩ else r2

lemma le_toNat_floor {x : ℚ} {n : ℕ} (h : (n : ℚ) ≤ x) : n ≤ Int.toNat ⌊x⌋ := by
  have h1 : (n : ℤ) ≤ ⌊x⌋ := Int.le_floor.mpr (by exact_mod_cast h)
  omega

lemma toNat_floor_le {x : ℚ} {n : ℕ} (h : x ≤ (n : ℚ)) : Int.toNat ⌊x⌋ ≤ n := by
  have h1 : ⌊x⌋ ≤ ⌊((n : ℕ) : ℚ)⌋ := Int.floor_le_floor h
  rw [Int.floor_natCast] at h1
  omega

/-- **C8 (amended).** With positive input dimensions and positive targets,
and the documented `cv2.resize` size contract, `resize_to_fill` always
returns exactly `(H, W)`; `resize_to_fit` returns exactly `(H, W)` whenever
both aspect-fit scaled dimensions `int(w*scale)`, `int(h*scale)` are
positive (`scale = min(W/w, H/h)`), and returns the input image unchanged —
not an `(H, W)` buffer — when either scaled dimension truncates to zero. -/
theorem resize_fit_fill_size_spec (cvr : Img → ℕ → ℕ → Img) (img : Img)
    (tw th : ℕ) (pad : ℤ) (hh : 0 < img.h) (hw : 0 < img.w) (htw : 0 < tw)
    (hth : 0 < th)
    (hcvr : ∀ i w h, 0 < w → 0 < h → (cvr i w h).h = h ∧ (cvr i w h).w = w) :
    ((resize_to_fill cvr img tw th).h = th ∧ (resize_to_fill cvr img tw th).w = tw) ∧
    (0 < Int.toNat ⌊(img.w : ℚ) * min ((tw : ℚ) / (img.w : ℚ)) ((th : ℚ) / (img.h : ℚ))⌋ →
      0 < Int.toNat ⌊(img.h : ℚ) * min ((tw : ℚ) / (img.w : ℚ)) ((th : ℚ) / (img.h : ℚ))⌋ →
      (resize_to_fit cvr img tw th pad).h = th ∧
      (resize_to_fit cvr img tw th pad).w = tw) ∧
    (Int.toNat ⌊(img.w : ℚ) * min ((tw : ℚ) / (img.w : ℚ)) ((th : ℚ) / (img.h : ℚ))⌋ = 0 ∨
      Int.toNat ⌊(img.h : ℚ) * min ((tw : ℚ) / (img.w : ℚ)) ((th : ℚ) / (img.h : ℚ))⌋ = 0 →
      resize_to_fit cvr img tw th pad = img) := by
  have hhq : (0 : ℚ) < (img.h : ℚ) := by exact_mod_cast hh
  have hwq : (0 : ℚ) < (img.w : ℚ) := by exact_mod_cast hw
  have htwq : (0 : ℚ) < (tw : ℚ) := by exact_mod_cast htw
  have hthq : (0 : ℚ) < (th : ℚ) := by exact_mod_cast hth
  refine ⟨?_, ?_, ?_⟩
  · -- resize_to_fill always hits the exact target size
    simp only [resize_to_fill]
    by_cases hcur : (tw : ℚ) / (th : ℚ) < (img.w : ℚ) / (img.h : ℚ)
    · rw [if_pos hcur]
      have hnh : Int.toNat ⌊(img.h : ℚ) * ((th : ℚ) / (img.h : ℚ))⌋ = th := by
        rw [show (img.h : ℚ) * ((th : ℚ) / (img.h : ℚ)) = (th : ℚ) by field_simp,
          Int.floor_natCast]
        omega
      have hnw : tw ≤ Int.toNat ⌊(img.w : ℚ) * ((th : ℚ) / (img.h : ℚ))⌋ := by
        apply le_toNat_floor
        have hkey : (tw : ℚ) * (img.h : ℚ) < (img.w : ℚ) * (th : ℚ) :=
          (div_lt_div_iff₀ hthq hhq).mp hcur
        rw [← mul_div_assoc, le_div_iff₀ hhq]
        linarith
      rw [hnh]
      rw [if_neg (by rintro (h0 | h0) <;> omega)]
      obtain ⟨hch, hcw⟩ :=
        hcvr img (Int.toNat ⌊(img.w : ℚ) * ((th : ℚ) / (img.h : ℚ))⌋) th (by omega) hth
      rw [if_neg (lt_irrefl th)]
      by_cases hα : tw < Int.toNat ⌊(img.w : ℚ) * ((th : ℚ) / (img.h : ℚ))⌋
      · rw [if_pos hα]
        exact ⟨hch, rfl⟩
      · rw [if_neg hα]
        have heq : Int.toNat ⌊(img.w : ℚ) * ((th : ℚ) / (img.h : ℚ))⌋ = tw := by omega
        refine ⟨hch, ?_⟩
        rw [hcw]
        exact heq
    · rw [if_neg hcur]
      have hnw : Int.toNat ⌊(img.w : ℚ) * ((tw : ℚ) / (img.w : ℚ))⌋ = tw := by
        rw [show (img.w : ℚ) * ((tw : ℚ) / (img.w : ℚ)) = (tw : ℚ) by field_simp,
          Int.floor_natCast]
        omega
      have hnh : th ≤ Int.toNat ⌊(img.h : ℚ) * ((tw : ℚ) / (img.w : ℚ))⌋ := by
        apply le_toNat_floor
        have hkey : (img.w : ℚ) * (th : ℚ) ≤ (tw : ℚ) * (img.h : ℚ) :=
          (div_le_div_iff₀ hhq hthq).mp (not_lt.mp hcur)
        rw [← mul_div_assoc, le_div_iff₀ hwq]
        linarith
      rw [hnw]
      rw [if_neg (by rintro (h0 | h0) <;> omega)]
      obtain ⟨hch, hcw⟩ :=
        hcvr img tw (Int.toNat ⌊(img.h : ℚ) * ((tw : ℚ) / (img.w : ℚ))⌋) htw (by omega)
      rw [if_neg (lt_irrefl tw)]
      by_cases hβ : th < Int.toNat ⌊(img.h : ℚ) * ((tw : ℚ) / (img.w : ℚ))⌋
      · rw [if_pos hβ]
        exact ⟨rfl, hcw⟩
      · rw [if_neg hβ]
        have heq : Int.toNat ⌊(img.h : ℚ) * ((tw : ℚ) / (img.w : ℚ))⌋ = th := by omega
        refine ⟨?_, hcw⟩
        rw [hch]
        exact heq
  · -- resize_to_fit hits the target whenever neither scaled dimension vanishes
    intro hnw0 hnh0
    have hrep : repoResize cvr img tw th = cvr img
        (Int.toNat ⌊(img.w : ℚ) * min ((tw : ℚ) / (img.w : ℚ)) ((th : ℚ) / (img.h : ℚ))⌋)
        (Int.toNat ⌊(img.h : ℚ) * min ((tw : ℚ) / (img.w : ℚ)) ((th : ℚ) / (img.h : ℚ))⌋) := by
      simp only [repoResize]
      rw [if_neg (by rintro (h0 | h0) <;> omega)]
    have hnwle : Int.toNat
        ⌊(img.w : ℚ) * min ((tw : ℚ) / (img.w : ℚ)) ((th : ℚ) / (img.h : ℚ))⌋ ≤ tw := by
      apply toNat_floor_le
      calc (img.w : ℚ) * min ((tw : ℚ) / (img.w : ℚ)) ((th : ℚ) / (img.h : ℚ))
          ≤ (img.w : ℚ) * ((tw : ℚ) / (img.w : ℚ)) :=
            mul_le_mul_of_nonneg_left (min_le_left _ _) (le_of_lt hwq)
      _ = (tw : ℚ) := by field_simp
    have hnhle : Int.toNat
        ⌊(img.h : ℚ) * min ((tw : ℚ) / (img.w : ℚ)) ((th : ℚ) / (img.h : ℚ))⌋ ≤ th := by
      apply toNat_floor_le
      calc (img.h : ℚ) * min ((tw : ℚ) / (img.w : ℚ)) ((th : ℚ) / (img.h : ℚ))
          ≤ (img.h : ℚ) * ((th : ℚ) / (img.h : ℚ)) :=
            mul_le_mul_of_nonneg_left (min_le_right _ _) (le_of_lt hhq)
      _ = (th : ℚ) := by field_simp
    obtain ⟨hch, hcw⟩ := hcvr img _ _ hnw0 hnh0
    simp only [resize_to_fit, hrep]
    by_cases hmatch :
        (cvr img
          (Int.toNat ⌊(img.w : ℚ) * min ((tw : ℚ) / (img.w : ℚ)) ((th : ℚ) / (img.h : ℚ))⌋)
          (Int.toNat
            ⌊(img.h : ℚ) * min ((tw : ℚ) / (img.w : ℚ)) ((th : ℚ) / (img.h : ℚ))⌋)).w = tw ∧
        (cvr img
          (Int.toNat ⌊(img.w : ℚ) * min ((tw : ℚ) / (img.w : ℚ)) ((th : ℚ) / (img.h : ℚ))⌋)
          (Int.toNat
            ⌊(img.h : ℚ) * min ((tw : ℚ) / (img.w : ℚ)) ((th : ℚ) / (img.h : ℚ))⌋)).h = th
    · rw [if_pos hmatch]
      exact ⟨hmatch.2, hmatch.1⟩
    · rw [if_neg hmatch,
        if_pos ⟨by rw [hcw]; exact hnwle, by rw [hch]; exact hnhle⟩]
      exact ⟨rfl, rfl⟩
  · -- a vanishing scaled dimension returns the input unchanged
    intro h0
    have hrep : repoResize cvr img tw th = img := by
      simp only [repoResize]
      rw [if_pos h0]
    simp only [resize_to_fit, hrep]
    by_cases hmatch : img.w = tw ∧ img.h = th
    · rw [if_pos hmatch]
    · have hcond : ¬(img.w ≤ tw ∧ img.h ≤ th) := by
        rintro ⟨h1, h2⟩
        have hs1 : (1 : ℚ) ≤ min ((tw : ℚ) / (img.w : ℚ)) ((th : ℚ) / (img.h : ℚ)) := by
          apply le_min
          · rw [le_div_iff₀ hwq, one_mul]
            exact_mod_cast h1
          · rw [le_div_iff₀ hhq, one_mul]
            exact_mod_cast h2
        have hw1 : img.w ≤ Int.toNat
            ⌊(img.w : ℚ) * min ((tw : ℚ) / (img.w : ℚ)) ((th : ℚ) / (img.h : ℚ))⌋ :=
          le_toNat_floor (le_mul_of_one_le_right (le_of_lt hwq) hs1)
        have hh1 : img.h ≤ Int.toNat
            ⌊(img.h : ℚ) * min ((tw : ℚ) / (img.w : ℚ)) ((th : ℚ) / (img.h : ℚ))⌋ :=
          le_toNat_floor (le_mul_of_one_le_right (le_of_lt hhq) hs1)
        rcases h0 with h0 | h0 <;> omega
      rw [if_neg hmatch, if_neg hcond]

/-- **C8 (counterexample).** `resize_to_fit` on a 1×1000 image with a 10×10
target: the aspect-fit scale `1/100` truncates the scaled height
`int(1 * 1/100)` to zero, `cv2.resize` rejects the empty size, and the
function returns the original 1×1000 image — not a 10×10 buffer. -/
theorem resize_to_fit_counterexample :
    (resize_to_fit (fun _ w h => ⟨h, w, fun _ _ => 0⟩) ⟨1, 1000, fun _ _ => 0⟩
        10 10 0).h = 1 ∧
    (resize_to_fit (fun _ w h => ⟨h, w, fun _ _ => 0⟩) ⟨1, 1000, fun _ _ => 0⟩
        10 10 0).w = 1000 ∧
    ¬((resize_to_fit (fun _ w h => ⟨h, w, fun _ _ => 0⟩) ⟨1, 1000, fun _ _ => 0⟩
        10 10 0).h = 10 ∧
      (resize_to_fit (fun _ w h => ⟨h, w, fun _ _ => 0⟩) ⟨1, 1000, fun _ _ => 0⟩
        10 10 0).w = 10) := by
  have hmin : min (((10 : ℕ) : ℚ) / ((1000 : ℕ) : ℚ)) (((10 : ℕ) : ℚ) / ((1 : ℕ) : ℚ)) =
      1 / 100 := by
    rw [min_def]
    norm_num
  have hzero : Int.toNat ⌊((1 : ℕ) : ℚ) *
      min (((10 : ℕ) : ℚ) / ((1000 : ℕ) : ℚ)) (((10 : ℕ) : ℚ) / ((1 : ℕ) : ℚ))⌋ = 0 := by
    rw [hmin, show ((1 : ℕ) : ℚ) * (1 / 100) = 1 / 100 by norm_num,
      ratFloor_eq (1 / 100) 0 (by norm_num) (by norm_num)]
    rfl
  have hfit : resize_to_fit (fun _ w h => (⟨h, w, fun _ _ => 0⟩ : Img))
      ⟨1, 1000, fun _ _ => 0⟩ 10 10 0 = ⟨1, 1000, fun _ _ => 0⟩ := by
    have hrep : repoResize (fun _ w h => (⟨h, w, fun _ _ => 0⟩ : Img))
        ⟨1, 1000, fun _ _ => 0⟩ 10 10 = ⟨1, 1000, fun _ _ => 0⟩ := by
      simp only [repoResize]
      rw [if_pos (Or.inr hzero)]
    simp only [resize_to_fit, hrep]
    rw [if_neg (by omega), if_neg (by omega)]
  rw [hfit]
  exact ⟨rfl, rfl, by decide⟩

/-- Witness for C8's always-exact clauses at a 2×2 image filled to 4×4. -/
theorem resize_fit_fill_size_spec_witness :
    ((resize_to_fill (fun _ w h => ⟨h, w, fun _ _ => 0⟩) ⟨2, 2, fun _ _ => 3⟩ 4 4).h = 4 ∧
      (resize_to_fill (fun _ w h => ⟨h, w, fun _ _ => 0⟩) ⟨2, 2, fun _ _ => 3⟩ 4 4).w = 4) :=
  (resize_fit_fill_size_spec (fun _ w h => ⟨h, w, fun _ _ => 0⟩) ⟨2, 2, fun _ _ => 3⟩
    4 4 0 (by norm_num) (by norm_num) (by norm_num) (by norm_num)
    (fun _ _ _ _ _ => ⟨rfl, rfl⟩)).1

/-! ### mask_to_polygon (`app/utils/geometry.py`, lines 207–234) -/

/-- Python's `max(list, key=f)`: the first element attaining the maximal key
(the running best is replaced only on a strictly larger key). -/
def pyMax {α : Type} (f : α → ℚ) (a : α) (l : List α) : α :=
  l.foldl (fun b x => if f b < f x then x else b) a

/-- `mask_to_polygon` (source lines 207–234): `cv2.findContours`
(parameter `findContours`), `cv2.contourArea` (`area`), `cv2.arcLength`
(`arc`) and `cv2.approxPolyDP` (`approx`) are external routines.  With no
contour the result is `none`; otherwise the largest-area contour is
approximated with tolerance `epsilon_factor * arcLength` and the resulting
point list is returned as a polygon — with no check on how many points the
approximation produced. -/
def mask_to_polygon {Mask Contour : Type} (findContours : Mask → List Contour)
    (area : Contour → ℚ) (arc : Contour → ℚ) (approx : Contour → ℚ → List Pt)
    (mask : Mask) (epsilonFactor : ℚ) : Option (List Pt) :=
  match findContours mask with
  | [] => none
  | c :: cs => some (approx (pyMax area c cs) (epsilonFactor * arc (pyMax area c cs)))

/-- **C9 (amended).** `mask_to_polygon` returns no polygon exactly when the
mask has no contour at all; when a contour exists it returns the
approximation of the largest-area contour as a polygon unconditionally —
the source contains no `< 3` point-count rejection. -/
theorem mask_to_polygon_spec {Mask Contour : Type} (findContours : Mask → List Contour)
    (area : Contour → ℚ) (arc : Contour → ℚ) (approx : Contour → ℚ → List Pt)
    (mask : Mask) (epsilonFactor : ℚ) :
    (findContours mask = [] →
      mask_to_polygon findContours area arc approx mask epsilonFactor = none) ∧
    (∀ c cs, findContours mask = c :: cs →
      mask_to_polygon findContours area arc approx mask epsilonFactor =
        some (approx (pyMax area c cs) (epsilonFactor * arc (pyMax area c cs)))) := by
  constructor
  · intro h
    simp [mask_to_polygon, h]
  · intro c cs h
    simp [mask_to_polygon, h]

/-- **C9 (counterexample).** An external approximation step producing a
single point (fewer than 3) is still wrapped in `some` and returned as a
polygon, not rejected. -/
theorem mask_to_polygon_short_approx_counterexample :
    mask_to_polygon (fun _ : Unit => [()]) (fun _ => 0) (fun _ => 0)
        (fun _ _ => [(⟨0, 0⟩ : Pt)]) () (1 / 100) = some [⟨0, 0⟩] ∧
    ([(⟨0, 0⟩ : Pt)]).length < 3 :=
  ⟨rfl, by norm_num⟩

/-- Witness for C9's no-contour clause. -/
theorem mask_to_polygon_spec_witness :
    mask_to_polygon (fun _ : Unit => ([] : List Unit)) (fun _ => 0) (fun _ => 0)
      (fun _ _ => [(⟨0, 0⟩ : Pt)]) () (1 / 100) = none :=
  (mask_to_polygon_spec (fun _ : Unit => ([] : List Unit)) (fun _ => 0) (fun _ => 0)
    (fun _ _ => [(⟨0, 0⟩ : Pt)]) () (1 / 100)).1 rfl

/-! ### ImageResizer.scale_by_factor (`app/core/resizer.py`, lines 216–259) -/

/-- `scale_by_factor` (source lines 216–259): a nonpositive factor is
rejected up front; then the scaled dimensions `int(w*f)`, `int(h*f)` are
computed (`f > 0` makes `int()` the floor) and a nonpositive dimension also
returns the input; only then is `cv2.resize` (parameter `cvr`) invoked. -/
def scale_by_factor (cvr : Img → ℕ → ℕ → Img) (img : Img) (f : ℚ) : Img :=
  if f ≤ 0 then img
  else
    let nw : ℤ := ⌊(img.w : ℚ) * f⌋
    let nh : ℤ := ⌊(img.h : ℚ) * f⌋
    if nw ≤ 0 ∨ nh ≤ 0 then img
    else cvr img nw.toNat nh.toNat

/-- **C10.** `scale_by_factor` returns the input image unchanged — raising
no error and producing no empty buffer — for every scale factor `≤ 0`, and
likewise whenever a scaled dimension floors to zero or below. -/
theorem scale_by_factor_guards (cvr : Img → ℕ → ℕ → Img) (img : Img) (f : ℚ) :
    (f ≤ 0 → scale_by_factor cvr img f = img) ∧
    (⌊(img.w : ℚ) * f⌋ ≤ 0 ∨ ⌊(img.h : ℚ) * f⌋ ≤ 0 →
      scale_by_factor cvr img f = img) := by
  constructor
  · intro h
    simp only [scale_by_factor]
    rw [if_pos h]
  · intro h
    simp only [scale_by_factor]
    by_cases hf : f ≤ 0
    · rw [if_pos hf]
    · rw [if_neg hf, if_pos h]

/-- Witness for C10: a negative factor and a factor flooring the dimensions
to zero both return the 2×2 input unchanged. -/
theorem scale_by_factor_guards_witness :
    scale_by_factor (fun _ w h => ⟨h, w, fun _ _ => 0⟩) ⟨2, 2, fun _ _ => 5⟩ (-1) =
      ⟨2, 2, fun _ _ => 5⟩ ∧
    scale_by_factor (fun _ w h => ⟨h, w, fun _ _ => 0⟩) ⟨2, 2, fun _ _ => 5⟩ (1 / 1000) =
      ⟨2, 2, fun _ _ => 5⟩ :=
  ⟨(scale_by_factor_guards _ _ _).1 (by norm_num),
   (scale_by_factor_guards _ _ _).2 (Or.inl (by
    rw [show ((2 : ℕ) : ℚ) * (1 / 1000) = 1 / 500 by norm_num,
      ratFloor_eq (1 / 500) 0 (by norm_num) (by norm_num)]))⟩

end LaptopScreen
